import Mathlib

/-!
Verification development for the `tkr_save_page` page-capture scripts
(`save_page.py`).  The Python code is shallowly embedded: strings become
`List Char`, byte buffers become `List Nat` (each entry `< 256`), the
Playwright browser session and the OpenAI client become explicit oracle
parameters, and the filesystem becomes an explicit list of written files.
-/

set_option autoImplicit false

deriving instance DecidableEq for Except

namespace SavePage

/-- Characters of a string literal, the working representation of Python
strings throughout this development. -/
def str (s : String) : List Char := s.data

/-! ## Python string primitives -/

/-- Auxiliary scanner for `pyReplace`: replaces every left-to-right,
non-overlapping occurrence of the nonempty pattern `p` by `r`, exactly as
Python's `str.replace` does.  Structural recursion on a fuel argument,
which `pyReplace` seeds with the string length; since every step consumes
at least one character and one unit of fuel, the fuel never runs out. -/
def replaceAux (p r : List Char) : Nat → List Char → List Char
  | _, [] => []
  | 0, s => s
  | fuel + 1, c :: cs =>
    if List.isPrefixOf p (c :: cs) then
      r ++ replaceAux p r fuel (List.drop (p.length - 1) cs)
    else
      c :: replaceAux p r fuel cs

/-- Python `s.replace(p, r)`: every occurrence of `p` in `s` is replaced by
`r`, scanning left to right without overlap.  An empty pattern inserts `r`
before every character and at the end, as Python does. -/
def pyReplace (s p r : List Char) : List Char :=
  match p with
  | [] => r ++ s.foldr (fun c acc => c :: (r ++ acc)) []
  | _ :: _ => replaceAux p r s.length s

/-- Python `p in s` for strings: `p` occurs as a contiguous substring of
`s`. -/
def hasSubstr (s p : List Char) : Bool :=
  List.isPrefixOf p s ||
    match s with
    | [] => false
    | _ :: cs => hasSubstr cs p

/-- Python `s.split(sep, 1)` when `sep` occurs: the part before the first
occurrence of `sep` and the part after it; `none` when `sep` is absent
(in which case Python's 2-element unpacking raises `ValueError`). -/
def splitOnceAt (sep : Char) : List Char → Option (List Char × List Char)
  | [] => none
  | c :: cs =>
    if c = sep then some ([], cs)
    else (splitOnceAt sep cs).map (fun q => (c :: q.1, q.2))

/-- Python `s.split(sep)[1]`: the segment between the first and second
occurrence of `sep`; `none` when `sep` is absent (Python raises
`IndexError`). -/
def secondSeg (sep : Char) (s : List Char) : Option (List Char) :=
  (splitOnceAt sep s).map (fun q => q.2.takeWhile (· ≠ sep))

/-- Whitespace characters stripped by Python's `str.strip()`. -/
def pySpace (c : Char) : Bool :=
  c = ' ' || c = '\t' || c = '\n' || c = '\r' || c = '\x0b' || c = '\x0c'

/-- Truthiness of `s.strip()` in Python: the string contains at least one
non-whitespace character. -/
def hasNonWS (s : List Char) : Bool := s.any (fun c => !pySpace c)

/-! ## URL parsing (`urllib.parse`) -/

/-- Characters allowed in a URL scheme after the leading letter. -/
def isSchemeChar (c : Char) : Bool :=
  c.isAlpha || c.isDigit || c = '+' || c = '-' || c = '.'

/-- Strips a leading `scheme:` from a URL the way `urlsplit` does: the text
before the first `:` must be nonempty, start with a letter and consist of
scheme characters; otherwise the URL is returned unchanged. -/
def splitScheme (u : List Char) : List Char :=
  match splitOnceAt ':' u with
  | none => u
  | some (pre, rest) =>
    match pre with
    | [] => u
    | c :: _ => if c.isAlpha && pre.all isSchemeChar then rest else u

/-- Whether `urlsplit` would recognise a scheme on `u`. -/
def hasScheme (u : List Char) : Bool :=
  match splitOnceAt ':' u with
  | none => false
  | some (pre, _) =>
    match pre with
    | [] => false
    | c :: _ => c.isAlpha && pre.all isSchemeChar

/-- Characters that terminate the netloc component. -/
def netlocEnd (c : Char) : Bool := c = '/' || c = '?' || c = '#'

/-- Python `urlparse(u).netloc`: the text after `scheme://` up to the next
`/`, `?` or `#`; empty when the URL does not start (after its scheme) with
`//`.  Note that `urlparse` preserves the case of the netloc. -/
def netlocOf (u : List Char) : List Char :=
  if List.isPrefixOf (str "//") (splitScheme u) then
    ((splitScheme u).drop 2).takeWhile (fun c => !netlocEnd c)
  else
    []

/-- Python `urlparse(u).path`: the text after the netloc up to the query or
fragment. -/
def pathOf (u : List Char) : List Char :=
  (if List.isPrefixOf (str "//") (splitScheme u) then
    ((splitScheme u).drop 2).dropWhile (fun c => !netlocEnd c)
  else splitScheme u).takeWhile (fun c => c ≠ '?' && c ≠ '#')

/-- Python `urlparse(u).scheme` (without the colon), empty when absent. -/
def schemeOf (u : List Char) : List Char :=
  match splitOnceAt ':' u with
  | none => []
  | some (pre, _) =>
    match pre with
    | [] => []
    | c :: _ => if c.isAlpha && pre.all isSchemeChar then pre else []

/-- Python `os.path.basename` applied to a URL path: the text after the
last `/` (the whole path when it has no `/`). -/
def basenameOf (p : List Char) : List Char :=
  ((p.reverse).takeWhile (· ≠ '/')).reverse

/-- Directory part of a URL path, up to and including the last `/`; a path
with no `/` contributes just `/`, matching relative resolution against a
netloc-rooted base. -/
def dirOf (p : List Char) : List Char :=
  if p.any (· = '/') then ((p.reverse).dropWhile (· ≠ '/')).reverse
  else str "/"

/-- Model of Python `urljoin(base, u)` restricted to the shapes this
program produces: a URL carrying its own scheme is returned unchanged, a
`//`-rooted reference adopts the base scheme, an absolute path is resolved
against the base authority, and a relative path is appended to the
directory of the base path.  Dot-segment normalisation is not modelled;
no claim exercises it. -/
def urljoinModel (base u : List Char) : List Char :=
  if u = [] then base
  else if hasScheme u then u
  else if List.isPrefixOf (str "//") u then schemeOf base ++ ':' :: u
  else if List.isPrefixOf (str "/") u then
    schemeOf base ++ str "://" ++ netlocOf base ++ u
  else
    schemeOf base ++ str "://" ++ netlocOf base ++ dirOf (pathOf base) ++ u

/-- Embedding of `url_to_dirname` (`save_page.py`): `urlparse(url).netloc`
with every occurrence of `'www.'` removed and every `'.'` replaced by
`'_'`, via Python `str.replace`. -/
def url_to_dirname (url : List Char) : List Char :=
  pyReplace (pyReplace (netlocOf url) (str "www.") []) (str ".") (str "_")

/-- Directory naming as the specification words it: the host name
lowercased, a leading `www.` stripped, and dots replaced by underscores.
Stated only to be compared against `url_to_dirname`. -/
def specDirname (url : List Char) : List Char :=
  let h := (netlocOf url).map Char.toLower
  let h := if List.isPrefixOf (str "www.") h then h.drop 4 else h
  h.map (fun c => if c = '.' then '_' else c)

/-! ## Base64 (`base64.b64decode` / `b64encode`) -/

/-- The standard base64 alphabet in index order. -/
def b64Chars : List Char :=
  str "ABCDEFGHIJKLMNOPQRSTUVWXYZabcdefghijklmnopqrstuvwxyz0123456789+/"

/-- Index of a character in the base64 alphabet. -/
def b64Val (c : Char) : Option Nat :=
  List.findIdx? (· = c) b64Chars

/-- Whether a character belongs to the base64 alphabet. -/
def isB64 (c : Char) : Bool := (b64Val c).isSome

/-- Character of the base64 alphabet at a given index. -/
def b64Chr (i : Nat) : Char := b64Chars.getD i 'A'

/-- Python `base64.b64encode` on a byte list (each entry `< 256`),
producing the canonical padded encoding. -/
def b64encode : List Nat → List Char
  | [] => []
  | [b1] => [b64Chr (b1 / 4), b64Chr (b1 % 4 * 16), '=', '=']
  | [b1, b2] =>
      [b64Chr (b1 / 4), b64Chr (b1 % 4 * 16 + b2 / 16), b64Chr (b2 % 16 * 4), '=']
  | b1 :: b2 :: b3 :: rest =>
      b64Chr (b1 / 4) :: b64Chr (b1 % 4 * 16 + b2 / 16) ::
      b64Chr (b2 % 16 * 4 + b3 / 64) :: b64Chr (b3 % 64) :: b64encode rest

/-- Decodes a run of base64 alphabet characters (the input after padding
removal) whose length is ≡ 0, 2 or 3 (mod 4); the final partial group
drops the unused low bits exactly as CPython's `binascii` does. -/
def b64Quads : List Char → Option (List Nat)
  | [] => some []
  | [_] => none
  | [c1, c2] =>
    match b64Val c1, b64Val c2 with
    | some v1, some v2 => some [v1 * 4 + v2 / 16]
    | _, _ => none
  | [c1, c2, c3] =>
    match b64Val c1, b64Val c2, b64Val c3 with
    | some v1, some v2, some v3 =>
      some [v1 * 4 + v2 / 16, v2 % 16 * 16 + v3 / 4]
    | _, _, _ => none
  | c1 :: c2 :: c3 :: c4 :: rest =>
    match b64Val c1, b64Val c2, b64Val c3, b64Val c4, b64Quads rest with
    | some v1, some v2, some v3, some v4, some tail =>
      some ((v1 * 4 + v2 / 16) :: (v2 % 16 * 16 + v3 / 4) :: (v3 % 4 * 64 + v4) :: tail)
    | _, _, _, _, _ => none

/-- Alphabet-or-padding filter applied by `b64decode`. -/
def b64Keep (c : Char) : Bool := isB64 c || c = '='

/-- Padding-free core of a filtered base64 input: the reversed input with
its leading run of `=` removed, reversed back. -/
def b64Core (t : List Char) : List Char :=
  (List.dropWhile (fun c => c = '=') t.reverse).reverse

/-- Python `base64.b64decode` with the default `validate=False`:
characters outside the alphabet (other than `=`) are discarded, the
remaining length must be a multiple of four, and at most two trailing
padding characters are accepted.  Inputs with interior padding — which
this program never feeds it — are rejected rather than modelled. -/
def b64decode (s : List Char) : Except (List Char) (List Nat) :=
  if (s.filter b64Keep).length % 4 ≠ 0 then .error (str "Incorrect padding")
  else if (List.takeWhile (fun c => c = '=') (s.filter b64Keep).reverse).length > 2 then
    .error (str "Invalid base64-encoded string")
  else if (b64Core (s.filter b64Keep)).any (fun c => c = '=') then
    .error (str "Discontinuous padding")
  else
    match b64Quads (b64Core (s.filter b64Keep)) with
    | some bs => .ok bs
    | none => .error (str "Invalid base64-encoded string")

/-- Whether a character is a hexadecimal digit. -/
def isHexDig (c : Char) : Bool :=
  c.isDigit || ('a' ≤ c && c ≤ 'f') || ('A' ≤ c && c ≤ 'F')

/-- Value of a hexadecimal digit character. -/
def hexVal (c : Char) : Nat :=
  if c.isDigit then c.toNat - '0'.toNat
  else if 'a' ≤ c && c ≤ 'f' then c.toNat - 'a'.toNat + 10
  else c.toNat - 'A'.toNat + 10

/-- Python `urllib.parse.unquote` followed by `.encode('utf-8')`,
restricted to percent sequences over ASCII text: a `%` followed by two hex
digits yields that byte, every other character contributes its code point
as a byte (the UTF-8 multi-byte split of non-ASCII code points is not
modelled; no claim exercises it). -/
def unquoteBytes : List Char → List Nat
  | [] => []
  | '%' :: h1 :: h2 :: rest =>
    if isHexDig h1 && isHexDig h2 then
      (16 * hexVal h1 + hexVal h2) :: unquoteBytes rest
    else '%'.toNat :: unquoteBytes (h1 :: h2 :: rest)
  | c :: rest => c.toNat :: unquoteBytes rest

/-! ## The capture pipeline (`save_page_with_assets`)

The browser session is abstracted into two oracles: `render`, the combined
outcome of `page.goto` / `page.content()` / `page.evaluate` on the target
page (an error message, or the serialised HTML together with the list of
discovered asset reference strings), and `fetch`, the response-body bytes
of `page.goto` on an asset URL (`none` models a null response, which the
code turns into a raised-and-caught exception).  Python's process-seeded
`hash` builtin is a further oracle `pyHash`.  File writes always succeed;
no claim concerns write failures. -/

/-- Record of one asset-file write: the reference string being processed,
the relative file name passed to `aiofiles.open`, and the bytes written. -/
structure WriteEvent where
  ref : List Char
  name : List Char
  data : List Nat
deriving DecidableEq

/-- Mutable state threaded through the asset loop of
`save_page_with_assets`: the working HTML text, the destination-directory
contents (written names with their latest bytes), the chronological write
log, and the lines appended to `errors.md`. -/
structure AssetState where
  html : List Char
  fsys : List (List Char × List Nat)
  wlog : List WriteEvent
  errs : List (List Char)
deriving DecidableEq

/-- Writes a file, overwriting any file already present under the same
name, as `open(path, 'wb')` does. -/
def fsWrite (fs : List (List Char × List Nat)) (n : List Char) (d : List Nat) :
    List (List Char × List Nat) :=
  if fs.any (fun q => q.1 = n) then
    fs.map (fun q => if q.1 = n then (q.1, d) else q)
  else fs ++ [(n, d)]

/-- Appends one `Failed to download …` line to the error log, mirroring
the `except` branch of the asset loop. -/
def logAssetError (st : AssetState) (subject msg : List Char) : AssetState :=
  { st with errs := st.errs ++ [str "Failed to download " ++ subject ++ str ": " ++ msg ++ ['\n']] }

/-- One iteration of the asset loop of `save_page_with_assets`
(`save_page.py` lines 69–106): a `data:` reference is split at its first
comma, named `inline_asset_<hash(encoded payload)>.<ext>` and decoded
(base64 or percent-encoding); a network reference is resolved with
`urljoin` and fetched through the browser, named by the basename of its
URL path with an `asset_<hash(url)>` fallback.  On success the bytes are
written under `assets/` and every occurrence of the (resolved) reference
string in the HTML is replaced by `assets/<file_name>`; any failure
appends a line to `errors.md` and leaves the HTML and file system
untouched. -/
def processAsset (pageUrl : List Char) (fetch : List Char → Option (List Nat))
    (pyHash : List Char → Int) (st : AssetState) (assetUrl : List Char) : AssetState :=
  if List.isPrefixOf (str "data:") assetUrl then
    match splitOnceAt ',' assetUrl with
    | none => logAssetError st assetUrl (str "not enough values to unpack (expected 2, got 1)")
    | some (mimeType, payload) =>
      match secondSeg '/' (mimeType.takeWhile (· ≠ ';')) with
      | none => logAssetError st assetUrl (str "list index out of range")
      | some ext =>
        let fileName := str "inline_asset_" ++ (toString (pyHash payload)).data ++ '.' :: ext
        let bytes :=
          if hasSubstr mimeType (str "base64") then b64decode payload
          else .ok (unquoteBytes payload)
        match bytes with
        | .error e => logAssetError st assetUrl e
        | .ok bs =>
          let path := str "assets/" ++ fileName
          { html := pyReplace st.html assetUrl path,
            fsys := fsWrite st.fsys path bs,
            wlog := st.wlog ++ [⟨assetUrl, path, bs⟩],
            errs := st.errs }
  else
    let joined := urljoinModel pageUrl assetUrl
    match fetch joined with
    | none => logAssetError st joined (str "Failed to fetch asset: " ++ joined)
    | some buffer =>
      let base := basenameOf (pathOf joined)
      let fileName :=
        if base = [] then str "asset_" ++ (toString (pyHash joined)).data else base
      let path := str "assets/" ++ fileName
      { html := pyReplace st.html joined path,
        fsys := fsWrite st.fsys path buffer,
        wlog := st.wlog ++ [⟨assetUrl, path, buffer⟩],
        errs := st.errs }

/-- Observable outcome of one `save_page_with_assets` run: the `assets/`
directory contents, the chronological asset-write log, the `errors.md`
lines, the text stored to `webpage.html` (when reached), and the
function's own termination — the returned HTML, or the exception that
escapes it. -/
structure CaptureOutcome where
  assets : List (List Char × List Nat)
  wlog : List WriteEvent
  errs : List (List Char)
  pageFile : Option (List Char)
  result : Except (List Char) (List Char)
deriving DecidableEq

/-- Embedding of `save_page_with_assets` (`save_page.py` lines 32–122).
When the render fails, the `except` block appends a single
`Failed to save page …` line to `errors.md` and the trailing
`return html_content` then raises `UnboundLocalError`, because
`html_content` is only assigned after a successful `page.goto`.  When the
render succeeds, the asset loop runs over the discovered references and
the rewritten HTML is stored to `webpage.html` and returned. -/
def save_page_with_assets (url : List Char)
    (render : Except (List Char) (List Char × List (List Char)))
    (fetch : List Char → Option (List Nat)) (pyHash : List Char → Int) :
    CaptureOutcome :=
  match render with
  | .error e =>
    { assets := [],
      wlog := [],
      errs := [str "Failed to save page " ++ url ++ str ": " ++ e ++ ['\n']],
      pageFile := none,
      result := .error (str "UnboundLocalError: cannot access local variable html_content") }
  | .ok (html0, refs) =>
    let st := refs.foldl (processAsset url fetch pyHash) ⟨html0, [], [], []⟩
    { assets := st.fsys,
      wlog := st.wlog,
      errs := st.errs,
      pageFile := some st.html,
      result := .ok st.html }

/-- The string whose occurrences the asset loop replaces for a given
reference: the raw reference for `data:` URLs, its `urljoin` resolution
against the page URL otherwise. -/
def rewriteTarget (pageUrl assetUrl : List Char) : List Char :=
  if List.isPrefixOf (str "data:") assetUrl then assetUrl
  else urljoinModel pageUrl assetUrl

/-- The local file name the asset loop derives for a reference, when the
reference reaches a successful write: `none` when the step fails
(malformed `data:` URL, decode error, or missing fetch response). -/
def assetSuccessName (pageUrl : List Char) (fetch : List Char → Option (List Nat))
    (pyHash : List Char → Int) (assetUrl : List Char) : Option (List Char) :=
  if List.isPrefixOf (str "data:") assetUrl then
    match splitOnceAt ',' assetUrl with
    | none => none
    | some (mimeType, payload) =>
      match secondSeg '/' (mimeType.takeWhile (· ≠ ';')) with
      | none => none
      | some ext =>
        let bytes :=
          if hasSubstr mimeType (str "base64") then b64decode payload
          else .ok (unquoteBytes payload)
        match bytes with
        | .error _ => none
        | .ok _ => some (str "inline_asset_" ++ (toString (pyHash payload)).data ++ '.' :: ext)
  else
    let joined := urljoinModel pageUrl assetUrl
    match fetch joined with
    | none => none
    | some _ =>
      let base := basenameOf (pathOf joined)
      some (if base = [] then str "asset_" ++ (toString (pyHash joined)).data else base)

/-- HTML evolution of one asset-loop iteration, in isolation from the file
system and the error log. -/
def stepHtml (pageUrl : List Char) (fetch : List Char → Option (List Nat))
    (pyHash : List Char → Int) (h assetUrl : List Char) : List Char :=
  match assetSuccessName pageUrl fetch pyHash assetUrl with
  | some fileName => pyReplace h (rewriteTarget pageUrl assetUrl) (str "assets/" ++ fileName)
  | none => h

/-! ## The parsed document (`BeautifulSoup`) and the translation pass

A parsed document is a forest of element and text nodes; element
attributes are unique-keyed association lists, as `Tag.attrs` is a dict.
The OpenAI client is abstracted into an oracle
`tr : contentType → text → Except error translation`; a `.error` outcome
models `send_message_async` raising, whose message `str(e)` the code
returns in place of a translation. -/

mutual
inductive HNode where
  | elem : List Char → List (List Char × List Char) → HForest → HNode
  | textN : List Char → HNode
deriving DecidableEq

inductive HForest where
  | nil : HForest
  | cons : HNode → HForest → HForest
deriving DecidableEq
end

/-- Translation oracle: content type and text in, translated text or the
exception's message out. -/
def Tr : Type := List Char → List Char → Except (List Char) (List Char)

/-- Embedding of `send_text_to_openai` (`save_page.py` lines 125–150): the
translation call is attempted and its result returned; an exception is
caught, logged, and its message string `str(e)` is returned instead, so
the function never raises. -/
def send_text_to_openai (tr : Tr) (contentType text : List Char) : List Char :=
  match tr contentType text with
  | .ok r => r
  | .error e => e

/-- Record of one translation attempt: the `content_type` tag, the text
submitted, and the oracle's outcome. -/
structure TCall where
  cat : List Char
  input : List Char
  output : Except (List Char) (List Char)
deriving DecidableEq

/-- Attribute lookup, as `'k' in tag.attrs` / `tag['k']`. -/
def getAttr (k : List Char) : List (List Char × List Char) → Option (List Char)
  | [] => none
  | (k2, v) :: rest => if k2 = k then some v else getAttr k rest

/-- Attribute update `tag['k'] = v` on an existing key. -/
def setAttr (k v : List Char) : List (List Char × List Char) → List (List Char × List Char)
  | [] => []
  | (k2, w) :: rest =>
    if k2 = k then (k2, v) :: setAttr k v rest else (k2, w) :: setAttr k v rest

/-- Whether `soup.find_all('meta', attrs={'name': ['description',
'keywords']})` selects this element and the subsequent
`'content' in meta.attrs` check passes. -/
def eligibleMeta (nm : List Char) (attrs : List (List Char × List Char)) : Bool :=
  nm = str "meta" &&
  (match getAttr (str "name") attrs with
   | some v => v = str "description" || v = str "keywords"
   | none => false) &&
  (getAttr (str "content") attrs).isSome

/-- Attribute rewrite of the meta pass on one element: the `content`
attribute of an eligible `meta` element is replaced by the send result on
its previous value, and the attempt is logged. -/
def metaAttrStep (tr : Tr) (nm : List Char) (attrs : List (List Char × List Char)) :
    List (List Char × List Char) × List TCall :=
  if eligibleMeta nm attrs then
    let c := (getAttr (str "content") attrs).getD []
    (setAttr (str "content") (send_text_to_openai tr (str "meta") c) attrs,
     [⟨str "meta", c, tr (str "meta") c⟩])
  else (attrs, [])

/-- Meta pass (`save_page.py` lines 206–210) over a forest, in document
order, returning the rewritten forest and the translation attempts. -/
def metaF (tr : Tr) : HForest → HForest × List TCall
  | .nil => (.nil, [])
  | .cons (.textN s) rest =>
    (.cons (.textN s) (metaF tr rest).1, (metaF tr rest).2)
  | .cons (.elem nm attrs cs) rest =>
    (.cons (.elem nm (metaAttrStep tr nm attrs).1 (metaF tr cs).1) (metaF tr rest).1,
     (metaAttrStep tr nm attrs).2 ++ (metaF tr cs).2 ++ (metaF tr rest).2)

/-- Attribute rewrite of the img pass on one element: an `img` element
carrying an `alt` attribute has it replaced by the send result when the
stripped value is non-empty; a blank `alt` is left untouched with no call
made. -/
def imgAttrStep (tr : Tr) (nm : List Char) (attrs : List (List Char × List Char)) :
    List (List Char × List Char) × List TCall :=
  if nm = str "img" then
    match getAttr (str "alt") attrs with
    | some a =>
      if hasNonWS a then
        (setAttr (str "alt") (send_text_to_openai tr (str "img") a) attrs,
         [⟨str "img", a, tr (str "img") a⟩])
      else (attrs, [])
    | none => (attrs, [])
  else (attrs, [])

/-- Img pass (`save_page.py` lines 212–217) over a forest. -/
def imgF (tr : Tr) : HForest → HForest × List TCall
  | .nil => (.nil, [])
  | .cons (.textN s) rest =>
    (.cons (.textN s) (imgF tr rest).1, (imgF tr rest).2)
  | .cons (.elem nm attrs cs) rest =>
    (.cons (.elem nm (imgAttrStep tr nm attrs).1 (imgF tr cs).1) (imgF tr rest).1,
     (imgAttrStep tr nm attrs).2 ++ (imgF tr cs).2 ++ (imgF tr rest).2)

/-- Parent names whose immediate text children the text pass skips
(`element.parent.name not in ['script', 'style', 'head', 'meta',
'[document]']`); `[document]` is the name of the `BeautifulSoup` root, the
parent of top-level nodes. -/
def skipParent (p : List Char) : Bool :=
  p = str "script" || p = str "style" || p = str "head" ||
  p = str "meta" || p = str "[document]"

/-- Text pass (`save_page.py` lines 220–224) over a forest whose parent
element is named `parent`: a text node under a non-skipped parent whose
stripped content is non-empty is replaced by the send result; only the
immediate parent's name is consulted, never further ancestors. -/
def textF (tr : Tr) (parent : List Char) : HForest → HForest × List TCall
  | .nil => (.nil, [])
  | .cons (.textN s) rest =>
    if !skipParent parent && hasNonWS s then
      (.cons (.textN (send_text_to_openai tr (str "element") s)) (textF tr parent rest).1,
       ⟨str "element", s, tr (str "element") s⟩ :: (textF tr parent rest).2)
    else (.cons (.textN s) (textF tr parent rest).1, (textF tr parent rest).2)
  | .cons (.elem nm attrs cs) rest =>
    (.cons (.elem nm attrs (textF tr nm cs).1) (textF tr parent rest).1,
     (textF tr nm cs).2 ++ (textF tr parent rest).2)

/-- The three passes of `translate_html_content` in source order:
meta tags, then img alt attributes, then visible text. -/
def translateDoc (tr : Tr) (doc : HForest) : HForest × List TCall :=
  ((textF tr (str "[document]") (imgF tr (metaF tr doc).1).1).1,
   (metaF tr doc).2 ++ (imgF tr (metaF tr doc).1).2 ++
     (textF tr (str "[document]") (imgF tr (metaF tr doc).1).1).2)

/-- Attribute serialisation for `str(soup)`. -/
def serializeAttrs : List (List Char × List Char) → List Char
  | [] => []
  | (k, v) :: rest => ' ' :: k ++ '=' :: '"' :: v ++ '"' :: serializeAttrs rest

/-- Document serialisation `str(soup)`. -/
def serializeF : HForest → List Char
  | .nil => []
  | .cons (.textN s) rest => s ++ serializeF rest
  | .cons (.elem nm attrs cs) rest =>
    '<' :: nm ++ serializeAttrs attrs ++ '>' :: serializeF cs ++
    '<' :: '/' :: nm ++ '>' :: serializeF rest

/-- Embedding of `translate_html_content` (`save_page.py` lines 192–229):
the whole body runs under `try`, so a parse failure (or any other
exception reaching the boundary) is caught and the input HTML returned
unchanged; otherwise the three passes run and the rewritten document is
serialised.  The parser is an oracle, as BeautifulSoup is an external
collaborator. -/
def translate_html_content (parse : List Char → Except (List Char) HForest)
    (tr : Tr) (html : List Char) : List Char :=
  match parse html with
  | .error _ => html
  | .ok doc => serializeF (translateDoc tr doc).1

/-! ## Observation functions over documents -/

/-- Contents of the `content` attribute of each meta element the meta pass
selects, in document order. -/
def metaContentsF : HForest → List (List Char)
  | .nil => []
  | .cons (.textN _) rest => metaContentsF rest
  | .cons (.elem nm attrs cs) rest =>
    (if eligibleMeta nm attrs then [(getAttr (str "content") attrs).getD []] else []) ++
    metaContentsF cs ++ metaContentsF rest

/-- Values of the `alt` attribute of each img element carrying one, in
document order. -/
def imgAltsF : HForest → List (List Char)
  | .nil => []
  | .cons (.textN _) rest => imgAltsF rest
  | .cons (.elem nm attrs cs) rest =>
    (if nm = str "img" then
       match getAttr (str "alt") attrs with
       | some a => [a]
       | none => []
     else []) ++
    imgAltsF cs ++ imgAltsF rest

/-- Every text node of a forest paired with the name of its immediate
parent element (`parent` for the top level), in document order. -/
def textsF (parent : List Char) : HForest → List (List Char × List Char)
  | .nil => []
  | .cons (.textN s) rest => (parent, s) :: textsF parent rest
  | .cons (.elem nm _ cs) rest => textsF nm cs ++ textsF parent rest

/-! ## Lemmas about attribute updates -/

theorem getAttr_setAttr_self (k v : List Char) :
    ∀ a, getAttr k (setAttr k v a) = (getAttr k a).map (fun _ => v)
  | [] => rfl
  | (k2, w) :: rest => by
    by_cases h : k2 = k
    · simp [getAttr, setAttr, h, getAttr_setAttr_self k v rest]
    · simp [getAttr, setAttr, h, getAttr_setAttr_self k v rest]

theorem getAttr_setAttr_ne (k k' v : List Char) (h : k' ≠ k) :
    ∀ a, getAttr k' (setAttr k v a) = getAttr k' a
  | [] => rfl
  | (k2, w) :: rest => by
    by_cases h2 : k2 = k
    · have hne : k ≠ k' := fun hh => h hh.symm
      simp [getAttr, setAttr, h2, hne, getAttr_setAttr_ne k k' v h rest]
    · simp [getAttr, setAttr, h2, getAttr_setAttr_ne k k' v h rest]

theorem metaAttrStep_getAttr_ne (tr : Tr) (nm k : List Char)
    (attrs : List (List Char × List Char)) (h : k ≠ str "content") :
    getAttr k (metaAttrStep tr nm attrs).1 = getAttr k attrs := by
  by_cases he : eligibleMeta nm attrs
  · simp [metaAttrStep, he, getAttr_setAttr_ne _ _ _ h]
  · simp [metaAttrStep, he]

theorem imgAttrStep_getAttr_ne (tr : Tr) (nm k : List Char)
    (attrs : List (List Char × List Char)) (h : k ≠ str "alt") :
    getAttr k (imgAttrStep tr nm attrs).1 = getAttr k attrs := by
  unfold imgAttrStep
  by_cases hi : nm = str "img"
  · simp only [hi, if_true]
    cases ha : getAttr (str "alt") attrs with
    | none => simp
    | some a =>
      by_cases hw : hasNonWS a
      · simp [hw, getAttr_setAttr_ne _ _ _ h]
      · simp [hw]
  · simp [hi]

theorem metaAttrStep_eligible (tr : Tr) (nm : List Char)
    (attrs : List (List Char × List Char)) :
    eligibleMeta nm (metaAttrStep tr nm attrs).1 = eligibleMeta nm attrs := by
  by_cases he : eligibleMeta nm attrs
  · rw [he]
    unfold eligibleMeta at he ⊢
    rw [metaAttrStep_getAttr_ne tr nm _ attrs (by decide)]
    by_cases hc : eligibleMeta nm attrs <;>
      simp_all [metaAttrStep, he, getAttr_setAttr_self, eligibleMeta]
  · simp [metaAttrStep, he]

theorem imgAttrStep_eligible (tr : Tr) (nm : List Char)
    (attrs : List (List Char × List Char)) :
    eligibleMeta nm (imgAttrStep tr nm attrs).1 = eligibleMeta nm attrs := by
  unfold eligibleMeta
  rw [imgAttrStep_getAttr_ne tr nm _ attrs (by decide),
      imgAttrStep_getAttr_ne tr nm _ attrs (by decide)]

theorem metaAttrStep_content (tr : Tr) (nm : List Char)
    (attrs : List (List Char × List Char)) (he : eligibleMeta nm attrs = true) :
    getAttr (str "content") (metaAttrStep tr nm attrs).1 =
      some (send_text_to_openai tr (str "meta")
        ((getAttr (str "content") attrs).getD [])) := by
  have hs : (getAttr (str "content") attrs).isSome := by
    unfold eligibleMeta at he
    simp only [Bool.and_eq_true] at he
    exact he.2
  obtain ⟨c, hc⟩ := Option.isSome_iff_exists.mp hs
  simp [metaAttrStep, he, getAttr_setAttr_self, hc]

/-- Per-element effect of the meta pass on the collected meta contents. -/
theorem metaCollect_step (tr : Tr) (nm : List Char)
    (attrs : List (List Char × List Char)) :
    (if eligibleMeta nm (metaAttrStep tr nm attrs).1 then
       [(getAttr (str "content") (metaAttrStep tr nm attrs).1).getD []]
     else []) =
    (if eligibleMeta nm attrs then [(getAttr (str "content") attrs).getD []]
     else []).map (send_text_to_openai tr (str "meta")) := by
  rw [metaAttrStep_eligible]
  by_cases he : eligibleMeta nm attrs
  · simp [he, metaAttrStep_content tr nm attrs he]
  · simp [he]

/-- Per-element effect of the img pass on the collected alt values. -/
theorem imgCollect_step (tr : Tr) (nm : List Char)
    (attrs : List (List Char × List Char)) :
    (if nm = str "img" then
       match getAttr (str "alt") (imgAttrStep tr nm attrs).1 with
       | some a => [a]
       | none => []
     else []) =
    (if nm = str "img" then
       match getAttr (str "alt") attrs with
       | some a => [if hasNonWS a then send_text_to_openai tr (str "img") a else a]
       | none => []
     else []) := by
  by_cases hi : nm = str "img"
  · simp only [hi, if_true]
    cases ha : getAttr (str "alt") attrs with
    | none => simp [imgAttrStep, hi, ha]
    | some a =>
      by_cases hw : hasNonWS a
      · simp [imgAttrStep, hi, ha, hw, getAttr_setAttr_self]
      · simp [imgAttrStep, hi, ha, hw]
  · simp [hi]

/-- Per-element call log of the img pass. -/
theorem imgAttrStep_log (tr : Tr) (nm : List Char)
    (attrs : List (List Char × List Char)) :
    (imgAttrStep tr nm attrs).2 =
    ((if nm = str "img" then
        match getAttr (str "alt") attrs with
        | some a => [a]
        | none => []
      else []).filter hasNonWS).map
      (fun a => (⟨str "img", a, tr (str "img") a⟩ : TCall)) := by
  by_cases hi : nm = str "img"
  · simp only [hi, if_true]
    cases ha : getAttr (str "alt") attrs with
    | none => simp [imgAttrStep, hi, ha]
    | some a =>
      by_cases hw : hasNonWS a
      · simp [imgAttrStep, hi, ha, hw]
      · simp [imgAttrStep, hi, ha, hw]
  · simp [imgAttrStep, hi]

/-- Per-element call log of the meta pass. -/
theorem metaAttrStep_log (tr : Tr) (nm : List Char)
    (attrs : List (List Char × List Char)) :
    (metaAttrStep tr nm attrs).2 =
    (if eligibleMeta nm attrs then [(getAttr (str "content") attrs).getD []]
     else []).map
      (fun c => (⟨str "meta", c, tr (str "meta") c⟩ : TCall)) := by
  by_cases he : eligibleMeta nm attrs <;> simp [metaAttrStep, he]

/-! ## Pass-level lemmas -/

theorem metaF_fst_contents (tr : Tr) : ∀ f : HForest,
    metaContentsF (metaF tr f).1 =
      (metaContentsF f).map (send_text_to_openai tr (str "meta"))
  | .nil => by simp [metaF, metaContentsF]
  | .cons (.textN s) rest => by
    simp [metaF, metaContentsF, metaF_fst_contents tr rest]
  | .cons (.elem nm attrs cs) rest => by
    simp only [metaF, metaContentsF, metaF_fst_contents tr cs,
      metaF_fst_contents tr rest, List.map_append]
    rw [metaCollect_step]

theorem metaF_snd (tr : Tr) : ∀ f : HForest,
    (metaF tr f).2 =
      (metaContentsF f).map
        (fun c => (⟨str "meta", c, tr (str "meta") c⟩ : TCall))
  | .nil => by simp [metaF, metaContentsF]
  | .cons (.textN s) rest => by
    simp [metaF, metaContentsF, metaF_snd tr rest]
  | .cons (.elem nm attrs cs) rest => by
    simp only [metaF, metaContentsF, metaF_snd tr cs, metaF_snd tr rest,
      List.map_append, metaAttrStep_log]

theorem metaF_alts (tr : Tr) : ∀ f : HForest,
    imgAltsF (metaF tr f).1 = imgAltsF f
  | .nil => by simp [metaF, imgAltsF]
  | .cons (.textN s) rest => by
    simp [metaF, imgAltsF, metaF_alts tr rest]
  | .cons (.elem nm attrs cs) rest => by
    simp only [metaF, imgAltsF, metaF_alts tr cs, metaF_alts tr rest]
    rw [metaAttrStep_getAttr_ne tr nm _ attrs (by decide)]

theorem metaF_texts (tr : Tr) (p : List Char) : ∀ f : HForest,
    textsF p (metaF tr f).1 = textsF p f
  | .nil => by simp [metaF, textsF]
  | .cons (.textN s) rest => by
    simp [metaF, textsF, metaF_texts tr p rest]
  | .cons (.elem nm attrs cs) rest => by
    simp [metaF, textsF, metaF_texts tr nm cs, metaF_texts tr p rest]

theorem imgF_fst_alts (tr : Tr) : ∀ f : HForest,
    imgAltsF (imgF tr f).1 =
      (imgAltsF f).map
        (fun a => if hasNonWS a then send_text_to_openai tr (str "img") a else a)
  | .nil => by simp [imgF, imgAltsF]
  | .cons (.textN s) rest => by
    simp [imgF, imgAltsF, imgF_fst_alts tr rest]
  | .cons (.elem nm attrs cs) rest => by
    simp only [imgF, imgAltsF, imgF_fst_alts tr cs, imgF_fst_alts tr rest,
      List.map_append]
    rw [imgCollect_step]
    by_cases hi : nm = str "img"
    · simp only [hi, if_true]
      cases ha : getAttr (str "alt") attrs <;> simp
    · simp [hi]

theorem imgF_snd (tr : Tr) : ∀ f : HForest,
    (imgF tr f).2 =
      ((imgAltsF f).filter hasNonWS).map
        (fun a => (⟨str "img", a, tr (str "img") a⟩ : TCall))
  | .nil => by simp [imgF, imgAltsF]
  | .cons (.textN s) rest => by
    simp [imgF, imgAltsF, imgF_snd tr rest]
  | .cons (.elem nm attrs cs) rest => by
    simp only [imgF, imgAltsF, imgF_snd tr cs, imgF_snd tr rest,
      imgAttrStep_log, List.filter_append, List.map_append]

theorem imgF_meta (tr : Tr) : ∀ f : HForest,
    metaContentsF (imgF tr f).1 = metaContentsF f
  | .nil => by simp [imgF, metaContentsF]
  | .cons (.textN s) rest => by
    simp [imgF, metaContentsF, imgF_meta tr rest]
  | .cons (.elem nm attrs cs) rest => by
    simp only [imgF, metaContentsF, imgF_meta tr cs, imgF_meta tr rest]
    rw [imgAttrStep_eligible,
        imgAttrStep_getAttr_ne tr nm _ attrs (by decide)]

theorem imgF_texts (tr : Tr) (p : List Char) : ∀ f : HForest,
    textsF p (imgF tr f).1 = textsF p f
  | .nil => by simp [imgF, textsF]
  | .cons (.textN s) rest => by
    simp [imgF, textsF, imgF_texts tr p rest]
  | .cons (.elem nm attrs cs) rest => by
    simp [imgF, textsF, imgF_texts tr nm cs, imgF_texts tr p rest]

theorem textF_fst_texts (tr : Tr) (p : List Char) : ∀ f : HForest,
    textsF p (textF tr p f).1 =
      (textsF p f).map
        (fun qs => if !skipParent qs.1 && hasNonWS qs.2 then
           (qs.1, send_text_to_openai tr (str "element") qs.2) else qs)
  | .nil => by simp [textF, textsF]
  | .cons (.textN s) rest => by
    by_cases hc : !skipParent p && hasNonWS s
    · have hb := hc
      simp only [Bool.and_eq_true, Bool.not_eq_true'] at hb
      simp [textF, textsF, hc, hb, textF_fst_texts tr p rest]
    · have hb := hc
      simp only [Bool.and_eq_true, Bool.not_eq_true'] at hb
      simp [textF, textsF, hc, hb, textF_fst_texts tr p rest]
  | .cons (.elem nm attrs cs) rest => by
    simp [textF, textsF, textF_fst_texts tr nm cs, textF_fst_texts tr p rest]

theorem textF_snd (tr : Tr) (p : List Char) : ∀ f : HForest,
    (textF tr p f).2 =
      ((textsF p f).filter (fun qs => !skipParent qs.1 && hasNonWS qs.2)).map
        (fun qs => (⟨str "element", qs.2, tr (str "element") qs.2⟩ : TCall))
  | .nil => by simp [textF, textsF]
  | .cons (.textN s) rest => by
    by_cases hc : !skipParent p && hasNonWS s
    · simp [textF, textsF, hc, textF_snd tr p rest]
    · simp [textF, textsF, hc, textF_snd tr p rest]
  | .cons (.elem nm attrs cs) rest => by
    simp [textF, textsF, textF_snd tr nm cs, textF_snd tr p rest,
      List.filter_append, List.map_append]

theorem textF_meta (tr : Tr) (p : List Char) : ∀ f : HForest,
    metaContentsF (textF tr p f).1 = metaContentsF f
  | .nil => by simp [textF, metaContentsF]
  | .cons (.textN s) rest => by
    by_cases hc : !skipParent p && hasNonWS s
    · simp [textF, metaContentsF, hc, textF_meta tr p rest]
    · simp [textF, metaContentsF, hc, textF_meta tr p rest]
  | .cons (.elem nm attrs cs) rest => by
    simp [textF, metaContentsF, textF_meta tr nm cs, textF_meta tr p rest]

theorem textF_alts (tr : Tr) (p : List Char) : ∀ f : HForest,
    imgAltsF (textF tr p f).1 = imgAltsF f
  | .nil => by simp [textF, imgAltsF]
  | .cons (.textN s) rest => by
    by_cases hc : !skipParent p && hasNonWS s
    · simp [textF, imgAltsF, hc, textF_alts tr p rest]
    · simp [textF, imgAltsF, hc, textF_alts tr p rest]
  | .cons (.elem nm attrs cs) rest => by
    simp [textF, imgAltsF, textF_alts tr nm cs, textF_alts tr p rest]

/-! ## List helpers for the base64 development -/

theorem filter_all_eq {α : Type} (q : α → Bool) :
    ∀ l : List α, (∀ x ∈ l, q x = true) → l.filter q = l
  | [], _ => rfl
  | x :: xs, h => by
    simp [List.filter_cons, h x (by simp),
      filter_all_eq q xs fun y hy => h y (by simp [hy])]

theorem takeWhile_append_of_all {α : Type} (q : α → Bool) :
    ∀ (a m : List α), (∀ x ∈ a, q x = true) →
      List.takeWhile q (a ++ m) = a ++ List.takeWhile q m
  | [], m, _ => rfl
  | x :: xs, m, h => by
    simp [List.takeWhile_cons, h x (by simp),
      takeWhile_append_of_all q xs m fun y hy => h y (by simp [hy])]

theorem dropWhile_append_of_all {α : Type} (q : α → Bool) :
    ∀ (a m : List α), (∀ x ∈ a, q x = true) →
      List.dropWhile q (a ++ m) = List.dropWhile q m
  | [], m, _ => rfl
  | x :: xs, m, h => by
    simp [List.dropWhile_cons, h x (by simp),
      dropWhile_append_of_all q xs m fun y hy => h y (by simp [hy])]

/-! ## Base64 round-trip -/

theorem b64Val_b64Chr_fin : ∀ i : Fin 64, b64Val (b64Chr i.1) = some i.1 := by decide

theorem b64Val_b64Chr (i : Nat) (h : i < 64) : b64Val (b64Chr i) = some i :=
  b64Val_b64Chr_fin ⟨i, h⟩

theorem isB64_b64Chr (i : Nat) (h : i < 64) : isB64 (b64Chr i) = true := by
  unfold isB64
  rw [b64Val_b64Chr i h]
  rfl

theorem isB64_pad : isB64 '=' = false := by decide

theorem ne_pad_of_isB64 {c : Char} (h : isB64 c = true) : c ≠ '=' := by
  intro he
  rw [he, isB64_pad] at h
  exact Bool.false_ne_true h

/-- Structure of `b64encode` output: valid alphabet characters followed by
at most two padding characters, of total length a multiple of four, whose
padding-free part decodes back to the input bytes. -/
theorem enc_spec : ∀ b : List Nat, (∀ x ∈ b, x < 256) →
    ∃ u p, b64encode b = u ++ p ∧ (∀ c ∈ u, isB64 c = true) ∧
      (p = [] ∨ p = ['='] ∨ p = ['=', '=']) ∧ (b ≠ [] → u ≠ []) ∧
      (u.length + p.length) % 4 = 0 ∧ b64Quads u = some b
  | [], _ => ⟨[], [], rfl, by simp, Or.inl rfl, by simp, by simp, rfl⟩
  | [b1], hb => by
    have h1 : b1 < 256 := hb b1 (by simp)
    refine ⟨[b64Chr (b1 / 4), b64Chr (b1 % 4 * 16)], ['=', '='], rfl, ?_,
      Or.inr (Or.inr rfl), by simp, by simp, ?_⟩
    · intro c hc
      simp only [List.mem_cons, List.not_mem_nil, or_false] at hc
      rcases hc with rfl | rfl
      · exact isB64_b64Chr _ (by omega)
      · exact isB64_b64Chr _ (by omega)
    · simp only [b64Quads, b64Val_b64Chr (b1 / 4) (by omega),
        b64Val_b64Chr (b1 % 4 * 16) (by omega)]
      simp only [Option.some.injEq, List.cons.injEq, and_true]
      omega
  | [b1, b2], hb => by
    have h1 : b1 < 256 := hb b1 (by simp)
    have h2 : b2 < 256 := hb b2 (by simp)
    refine ⟨[b64Chr (b1 / 4), b64Chr (b1 % 4 * 16 + b2 / 16), b64Chr (b2 % 16 * 4)],
      ['='], rfl, ?_, Or.inr (Or.inl rfl), by simp, by simp, ?_⟩
    · intro c hc
      simp only [List.mem_cons, List.not_mem_nil, or_false] at hc
      rcases hc with rfl | rfl | rfl
      · exact isB64_b64Chr _ (by omega)
      · exact isB64_b64Chr _ (by omega)
      · exact isB64_b64Chr _ (by omega)
    · simp only [b64Quads, b64Val_b64Chr (b1 / 4) (by omega),
        b64Val_b64Chr (b1 % 4 * 16 + b2 / 16) (by omega),
        b64Val_b64Chr (b2 % 16 * 4) (by omega)]
      simp only [Option.some.injEq, List.cons.injEq, and_true]
      constructor
      · omega
      · omega
  | b1 :: b2 :: b3 :: rest, hb => by
    have h1 : b1 < 256 := hb b1 (by simp)
    have h2 : b2 < 256 := hb b2 (by simp)
    have h3 : b3 < 256 := hb b3 (by simp)
    obtain ⟨u, p, henc, hval, hpad, _, hlen, hquads⟩ :=
      enc_spec rest (fun x hx => hb x (by simp [hx]))
    refine ⟨b64Chr (b1 / 4) :: b64Chr (b1 % 4 * 16 + b2 / 16) ::
        b64Chr (b2 % 16 * 4 + b3 / 64) :: b64Chr (b3 % 64) :: u, p, ?_, ?_, hpad,
      by simp, ?_, ?_⟩
    · simp [b64encode, henc]
    · intro c hc
      simp only [List.mem_cons] at hc
      rcases hc with rfl | rfl | rfl | rfl | hc
      · exact isB64_b64Chr _ (by omega)
      · exact isB64_b64Chr _ (by omega)
      · exact isB64_b64Chr _ (by omega)
      · exact isB64_b64Chr _ (by omega)
      · exact hval c hc
    · simp only [List.length_cons]
      omega
    · simp only [b64Quads, b64Val_b64Chr (b1 / 4) (by omega),
        b64Val_b64Chr (b1 % 4 * 16 + b2 / 16) (by omega),
        b64Val_b64Chr (b2 % 16 * 4 + b3 / 64) (by omega),
        b64Val_b64Chr (b3 % 64) (by omega), hquads]
      simp only [Option.some.injEq, List.cons.injEq, and_true]
      omega

/-- Decoding inverts encoding: the canonical base64 encoding of any byte
sequence decodes back to exactly those bytes. -/
theorem b64decode_b64encode (b : List Nat) (hb : ∀ x ∈ b, x < 256) :
    b64decode (b64encode b) = .ok b := by
  cases b with
  | nil => decide
  | cons b0 bs =>
    obtain ⟨u, p, henc, hval, hpad, hne, hlen, hquads⟩ := enc_spec (b0 :: bs) hb
    have hu : u ≠ [] := hne (by simp)
    have hpadall : ∀ x ∈ p.reverse, (fun c => (c = '=' : Bool)) x = true := by
      intro x hx
      rcases hpad with h | h | h <;> subst h <;> simp_all
    obtain ⟨c, cs, hurev⟩ : ∃ c cs, u.reverse = c :: cs := by
      cases hr : u.reverse with
      | nil => exact absurd (by simpa using congrArg List.reverse hr) hu
      | cons c cs => exact ⟨c, cs, rfl⟩
    have hcmem : c ∈ u := by
      have : c ∈ u.reverse := by rw [hurev]; simp
      simpa using this
    have hcne : (c = '=' : Bool) = false := by
      simp [ne_pad_of_isB64 (hval c hcmem)]
    have hfil : (b64encode (b0 :: bs)).filter b64Keep = u ++ p := by
      rw [henc]
      apply filter_all_eq
      intro x hx
      rcases List.mem_append.mp hx with hx | hx
      · simp [b64Keep, hval x hx]
      · rcases hpad with h | h | h <;> subst h <;> simp_all [b64Keep]
    have hlen2 : (u ++ p).length % 4 = 0 := by
      rw [List.length_append]
      exact hlen
    have htake : List.takeWhile (fun c => (c = '=' : Bool)) (u ++ p).reverse =
        p.reverse := by
      rw [List.reverse_append, takeWhile_append_of_all _ p.reverse u.reverse hpadall,
        hurev, List.takeWhile_cons, hcne]
      simp
    have hcore : b64Core (u ++ p) = u := by
      unfold b64Core
      rw [List.reverse_append, dropWhile_append_of_all _ p.reverse u.reverse hpadall,
        hurev, List.dropWhile_cons, hcne]
      simp only [Bool.false_eq_true, if_false]
      rw [← hurev, List.reverse_reverse]
    have hplen : p.reverse.length ≤ 2 := by
      rcases hpad with h | h | h <;> subst h <;> simp
    have hnopad : u.any (fun x => (x = '=' : Bool)) = false := by
      simp only [List.any_eq_false]
      intro x hx
      simp [ne_pad_of_isB64 (hval x hx)]
    unfold b64decode
    rw [hfil, if_neg (by simp [List.length_append, hlen]), htake, if_neg (by omega),
      hcore, if_neg (by simp [hnopad]), hquads]

/-! ## Pipeline projection lemmas -/

/-- The HTML component of one asset-loop iteration depends only on the
incoming HTML: it is the `stepHtml` substitution, independently of the
accumulated file system, write log and error log. -/
theorem processAsset_html (u : List Char) (fetch : List Char → Option (List Nat))
    (pyHash : List Char → Int) (st : AssetState) (r : List Char) :
    (processAsset u fetch pyHash st r).html = stepHtml u fetch pyHash st.html r := by
  unfold processAsset stepHtml assetSuccessName rewriteTarget
  by_cases hd : List.isPrefixOf (str "data:") r
  · simp only [hd, if_true]
    cases hsp : splitOnceAt ',' r with
    | none => simp [logAssetError]
    | some q =>
      obtain ⟨mt, pl⟩ := q
      simp only
      cases hsg : secondSeg '/' (mt.takeWhile (· ≠ ';')) with
      | none => simp [logAssetError]
      | some ext =>
        simp only
        cases hby : (if hasSubstr mt (str "base64") then b64decode pl
            else Except.ok (unquoteBytes pl)) with
        | error e => simp [logAssetError]
        | ok bs => simp
  · simp only [hd, if_false, Bool.false_eq_true]
    cases hf : fetch (urljoinModel u r) with
    | none => simp [logAssetError]
    | some buffer => simp

theorem foldl_processAsset_html (u : List Char)
    (fetch : List Char → Option (List Nat)) (pyHash : List Char → Int) :
    ∀ (refs : List (List Char)) (st : AssetState),
      ((refs.foldl (processAsset u fetch pyHash) st).html) =
        refs.foldl (stepHtml u fetch pyHash) st.html
  | [], _ => rfl
  | r :: rs, st => by
    rw [List.foldl_cons, List.foldl_cons, foldl_processAsset_html u fetch pyHash rs,
      processAsset_html]

/-- A write event is correctly named when the asset loop's deterministic
file-name derivation on its reference succeeds and yields its name. -/
def namedByLoop (u : List Char) (fetch : List Char → Option (List Nat))
    (pyHash : List Char → Int) (ev : WriteEvent) : Prop :=
  ∃ n, assetSuccessName u fetch pyHash ev.ref = some n ∧
    ev.name = str "assets/" ++ n

theorem processAsset_wlog_named (u : List Char)
    (fetch : List Char → Option (List Nat)) (pyHash : List Char → Int)
    (st : AssetState) (r : List Char)
    (h : ∀ ev ∈ st.wlog, namedByLoop u fetch pyHash ev) :
    ∀ ev ∈ (processAsset u fetch pyHash st r).wlog, namedByLoop u fetch pyHash ev := by
  intro ev hev
  unfold processAsset at hev
  by_cases hd : List.isPrefixOf (str "data:") r
  · simp only [hd, if_true] at hev
    cases hsp : splitOnceAt ',' r with
    | none =>
      rw [hsp] at hev
      exact h ev (by simpa [logAssetError] using hev)
    | some q =>
      obtain ⟨mt, pl⟩ := q
      rw [hsp] at hev
      simp only at hev
      cases hsg : secondSeg '/' (mt.takeWhile (· ≠ ';')) with
      | none =>
        rw [hsg] at hev
        exact h ev (by simpa [logAssetError] using hev)
      | some ext =>
        rw [hsg] at hev
        simp only at hev
        cases hby : (if hasSubstr mt (str "base64") then b64decode pl
            else Except.ok (unquoteBytes pl)) with
        | error e =>
          rw [hby] at hev
          exact h ev (by simpa [logAssetError] using hev)
        | ok bs =>
          rw [hby] at hev
          simp only [List.mem_append, List.mem_singleton] at hev
          rcases hev with hev | hev
          · exact h ev hev
          · subst hev
            have hsg2 := hsg
            simp only [ne_eq, decide_not] at hsg2
            refine ⟨str "inline_asset_" ++ (toString (pyHash pl)).data ++ '.' :: ext,
              ?_, rfl⟩
            simp [assetSuccessName, hd, hsp, hsg, hsg2, hby]
  · simp only [hd, if_false, Bool.false_eq_true] at hev
    cases hf : fetch (urljoinModel u r) with
    | none =>
      rw [hf] at hev
      exact h ev (by simpa [logAssetError] using hev)
    | some buffer =>
      rw [hf] at hev
      simp only [List.mem_append, List.mem_singleton] at hev
      rcases hev with hev | hev
      · exact h ev hev
      · subst hev
        refine ⟨_, ?_, rfl⟩
        simp [assetSuccessName, hd, hf]

theorem foldl_wlog_named (u : List Char) (fetch : List Char → Option (List Nat))
    (pyHash : List Char → Int) :
    ∀ (refs : List (List Char)) (st : AssetState),
      (∀ ev ∈ st.wlog, namedByLoop u fetch pyHash ev) →
      ∀ ev ∈ (refs.foldl (processAsset u fetch pyHash) st).wlog,
        namedByLoop u fetch pyHash ev
  | [], _, h => h
  | r :: rs, st, h => by
    rw [List.foldl_cons]
    exact foldl_wlog_named u fetch pyHash rs _
      (processAsset_wlog_named u fetch pyHash st r h)

/-- Filtering a mapped list filters on the composed predicate. -/
theorem filter_of_map {α β : Type} (p : β → Bool) (f : α → β) :
    ∀ l : List α, (l.map f).filter p = (l.filter (fun a => p (f a))).map f
  | [] => rfl
  | x :: xs => by
    by_cases hp : p (f x) <;>
      simp [List.filter_cons, hp, filter_of_map p f xs]

/-- Netloc extraction on a well-formed `https` URL recovers the host. -/
theorem netlocOf_https (host rest2 : List Char)
    (h : ∀ c ∈ host, netlocEnd c = false) :
    netlocOf (str "https://" ++ host ++ '/' :: rest2) = host := by
  have e : str "https://" ++ host ++ '/' :: rest2 =
      'h' :: 't' :: 't' :: 'p' :: 's' :: ':' :: '/' :: '/' :: (host ++ '/' :: rest2) := rfl
  have hss : splitScheme
      ('h' :: 't' :: 't' :: 'p' :: 's' :: ':' :: '/' :: '/' :: (host ++ '/' :: rest2)) =
      '/' :: '/' :: (host ++ '/' :: rest2) := rfl
  have hpre : List.isPrefixOf (str "//") ('/' :: '/' :: (host ++ '/' :: rest2)) = true := by
    simp [str, List.isPrefixOf]
  have hdrop : List.drop 2 ('/' :: '/' :: (host ++ '/' :: rest2)) = host ++ '/' :: rest2 := rfl
  rw [e]
  unfold netlocOf
  rw [hss, hpre]
  simp only [if_true]
  rw [hdrop]
  rw [takeWhile_append_of_all _ host ('/' :: rest2) (fun x hx => by simp [h x hx])]
  rw [List.takeWhile_cons]
  simp [netlocEnd]

/-! ## Claims -/

/-- C1 (amended): for every successfully fetched reference the asset loop
performs one left-to-right textual replacement of the reference's resolved
form — the raw string for `data:` URLs, its `urljoin` against the page URL
otherwise — by `assets/<localFileName>`; the saved and returned HTML is
the discovery-order fold of these replacements over the references.
Occurrences of a relative original spelling are therefore not replaced. -/
theorem c1_rewrites_resolved_refs_fold (url html0 : List Char)
    (refs : List (List Char)) (fetch : List Char → Option (List Nat))
    (pyHash : List Char → Int) :
    (save_page_with_assets url (.ok (html0, refs)) fetch pyHash).pageFile =
      some (refs.foldl (stepHtml url fetch pyHash) html0) ∧
    (save_page_with_assets url (.ok (html0, refs)) fetch pyHash).result =
      .ok (refs.foldl (stepHtml url fetch pyHash) html0) := by
  constructor <;> simp [save_page_with_assets, foldl_processAsset_html]

/-- C1 counterexample: the reference `style.css` is fetched successfully
(its resolved URL `https://ex.com/style.css` is written to
`assets/style.css`), yet the saved HTML still contains the original
reference string `style.css`, because the loop replaces only the resolved
absolute URL, which never occurs in the document. -/
theorem c1_counterexample :
    (save_page_with_assets (str "https://ex.com/")
        (.ok (str "<link rel=\"stylesheet\" href=\"style.css\">", [str "style.css"]))
        (fun u => if u = str "https://ex.com/style.css" then some [1, 2, 3] else none)
        (fun _ => 0)).wlog =
      [⟨str "style.css", str "assets/style.css", [1, 2, 3]⟩] ∧
    (save_page_with_assets (str "https://ex.com/")
        (.ok (str "<link rel=\"stylesheet\" href=\"style.css\">", [str "style.css"]))
        (fun u => if u = str "https://ex.com/style.css" then some [1, 2, 3] else none)
        (fun _ => 0)).pageFile =
      some (str "<link rel=\"stylesheet\" href=\"style.css\">") ∧
    hasSubstr (str "<link rel=\"stylesheet\" href=\"style.css\">") (str "style.css") =
      true := by
  decide

/-- C2 (amended): every eligible meta unit is submitted (the call log
lists every unit with its outcome regardless of failures, so one failure
never aborts the pass), and each unit's `content` attribute is replaced by
`send_text_to_openai`'s result — the translation on success, but the
exception's message string on failure, not the original text. -/
theorem c2_failed_unit_gets_error_string (tr : Tr) (doc : HForest) :
    metaContentsF (translateDoc tr doc).1 =
      (metaContentsF doc).map (send_text_to_openai tr (str "meta")) ∧
    (translateDoc tr doc).2 =
      (metaContentsF doc).map
        (fun c => (⟨str "meta", c, tr (str "meta") c⟩ : TCall)) ++
      ((imgAltsF doc).filter hasNonWS).map
        (fun a => (⟨str "img", a, tr (str "img") a⟩ : TCall)) ++
      ((textsF (str "[document]") doc).filter
          (fun qs => !skipParent qs.1 && hasNonWS qs.2)).map
        (fun qs => (⟨str "element", qs.2, tr (str "element") qs.2⟩ : TCall)) := by
  constructor
  · simp only [translateDoc]
    rw [textF_meta, imgF_meta, metaF_fst_contents]
  · simp only [translateDoc]
    rw [metaF_snd, imgF_snd, textF_snd, metaF_alts, imgF_texts, metaF_texts]

/-- C2 counterexample: a meta description `Hello` whose translation call
fails with message `boom` ends up with `content` equal to `boom` in the
output document — the original text is not left in place. -/
theorem c2_counterexample :
    metaContentsF (translateDoc (fun _ _ => .error (str "boom"))
      (.cons (.elem (str "meta")
        [(str "name", str "description"), (str "content", str "Hello")] .nil)
        .nil)).1 = [str "boom"] ∧
    str "boom" ≠ str "Hello" := by
  decide

/-- C3 (amended): every write of the asset loop uses the deterministic
name derivation of `assetSuccessName` on its reference — basename of the
resolved URL path (hash fallback) for network assets, hash of the encoded
payload for inline assets — so the same reference always yields the same
file name; but nothing prevents two distinct references with distinct
payloads from colliding on the same name. -/
theorem c3_write_names_deterministic (url html0 : List Char)
    (refs : List (List Char)) (fetch : List Char → Option (List Nat))
    (pyHash : List Char → Int) (ev : WriteEvent)
    (hev : ev ∈ (save_page_with_assets url (.ok (html0, refs)) fetch pyHash).wlog) :
    namedByLoop url fetch pyHash ev ∧
    ∀ ev2 ∈ (save_page_with_assets url (.ok (html0, refs)) fetch pyHash).wlog,
      ev.ref = ev2.ref → ev.name = ev2.name := by
  have hrun : (save_page_with_assets url (.ok (html0, refs)) fetch pyHash).wlog =
      (refs.foldl (processAsset url fetch pyHash) ⟨html0, [], [], []⟩).wlog := rfl
  rw [hrun] at hev
  have h1 := foldl_wlog_named url fetch pyHash refs ⟨html0, [], [], []⟩ (by simp) ev hev
  refine ⟨h1, ?_⟩
  intro ev2 hev2 href
  rw [hrun] at hev2
  have h2 := foldl_wlog_named url fetch pyHash refs ⟨html0, [], [], []⟩ (by simp) ev2 hev2
  obtain ⟨n, hn, hname⟩ := h1
  obtain ⟨n2, hn2, hname2⟩ := h2
  rw [href] at hn
  rw [hn] at hn2
  cases hn2
  rw [hname, hname2]

/-- C3 witness: a concrete run writing `x.css`, named through the loop's
derivation. -/
theorem c3_write_names_deterministic_witness :
    namedByLoop (str "https://a.com/")
      (fun u => if u = str "https://a.com/x.css" then some [7] else none)
      (fun _ => 0) ⟨str "x.css", str "assets/x.css", [7]⟩ :=
  (c3_write_names_deterministic (str "https://a.com/") (str "") [str "x.css"]
    (fun u => if u = str "https://a.com/x.css" then some [7] else none)
    (fun _ => 0) ⟨str "x.css", str "assets/x.css", [7]⟩ (by decide)).1

/-- C3 counterexample: two distinct references with distinct payloads
(`[1]` and `[2]`) are both written to `assets/img.png`; the second write
overwrites the first, so the final directory holds only payload `[2]`. -/
theorem c3_counterexample :
    (save_page_with_assets (str "https://ex.com/")
        (.ok (str "", [str "https://a.com/img.png", str "https://b.com/img.png"]))
        (fun u => if u = str "https://a.com/img.png" then some [1]
          else if u = str "https://b.com/img.png" then some [2] else none)
        (fun _ => 0)).wlog =
      [⟨str "https://a.com/img.png", str "assets/img.png", [1]⟩,
       ⟨str "https://b.com/img.png", str "assets/img.png", [2]⟩] ∧
    (save_page_with_assets (str "https://ex.com/")
        (.ok (str "", [str "https://a.com/img.png", str "https://b.com/img.png"]))
        (fun u => if u = str "https://a.com/img.png" then some [1]
          else if u = str "https://b.com/img.png" then some [2] else none)
        (fun _ => 0)).assets = [(str "assets/img.png", [2])] ∧
    str "https://a.com/img.png" ≠ str "https://b.com/img.png" ∧
    ([1] : List Nat) ≠ [2] := by
  decide

/-- C4 (amended): when the render fails no page or asset file is written,
but exactly one `Failed to save page …` line is appended to `errors.md`
(so the error log is an output file), and the function then terminates
abnormally with an `UnboundLocalError` on `return html_content` rather
than raising a single clean capture error. -/
theorem c4_render_failure_outcome (url e : List Char)
    (fetch : List Char → Option (List Nat)) (pyHash : List Char → Int) :
    (save_page_with_assets url (.error e) fetch pyHash).assets = [] ∧
    (save_page_with_assets url (.error e) fetch pyHash).wlog = [] ∧
    (save_page_with_assets url (.error e) fetch pyHash).pageFile = none ∧
    (save_page_with_assets url (.error e) fetch pyHash).errs =
      [str "Failed to save page " ++ url ++ str ": " ++ e ++ ['\n']] ∧
    (save_page_with_assets url (.error e) fetch pyHash).result =
      .error (str "UnboundLocalError: cannot access local variable html_content") :=
  ⟨rfl, rfl, rfl, rfl, rfl⟩

/-- C4 counterexample: a timed-out render produces a non-empty `errors.md`
— an output file — contradicting the claim that the run produces zero
output files. -/
theorem c4_counterexample :
    (save_page_with_assets (str "https://www.example.com")
        (.error (str "Timeout 30000ms exceeded"))
        (fun _ => none) (fun _ => 0)).errs =
      [str "Failed to save page https://www.example.com: Timeout 30000ms exceeded\n"] ∧
    (save_page_with_assets (str "https://www.example.com")
        (.error (str "Timeout 30000ms exceeded"))
        (fun _ => none) (fun _ => 0)).errs ≠ [] := by
  decide

/-- C5 (amended): for a well-formed `https` URL the directory name is the
host with every occurrence of the literal string `www.` removed
(case-sensitively, wherever it occurs, not only a leading one) and every
`.` replaced by `_`; the host's case is preserved, with no lowercasing. -/
theorem c5_dirname_characterization (host path : List Char)
    (h : ∀ c ∈ host, netlocEnd c = false) :
    url_to_dirname (str "https://" ++ host ++ '/' :: path) =
      pyReplace (pyReplace host (str "www.") []) (str ".") (str "_") := by
  unfold url_to_dirname
  rw [netlocOf_https host path h]

/-- C5 witness: the characterization applied to a concrete host. -/
theorem c5_dirname_characterization_witness :
    url_to_dirname (str "https://" ++ str "code.www.Example.com" ++ '/' :: []) =
      pyReplace (pyReplace (str "code.www.Example.com") (str "www.") [])
        (str ".") (str "_") :=
  c5_dirname_characterization (str "code.www.Example.com") [] (by decide)

/-- C5 counterexample: the code neither lowercases the host nor restricts
the `www.` strip to a leading occurrence, so it disagrees with the
spec-described derivation (`specDirname`) on `https://WWW.Example.com`
(case) and on `https://en.www.example.org` (interior `www.`). -/
theorem c5_counterexample :
    url_to_dirname (str "https://WWW.Example.com") = str "WWW_Example_com" ∧
    specDirname (str "https://WWW.Example.com") = str "example_com" ∧
    str "WWW_Example_com" ≠ str "example_com" ∧
    url_to_dirname (str "https://en.www.example.org") = str "en_example_org" ∧
    specDirname (str "https://en.www.example.org") = str "en_www_example_org" ∧
    str "en_example_org" ≠ str "en_www_example_org" := by
  decide

/-- C6 (amended): the scenario `data:image/png;base64,iVBORw0KGgo=`
decodes to the PNG header bytes and is written as
`assets/inline_asset_<hash>.png`, where `<hash>` is Python's builtin
`hash` applied to the ENCODED payload text after the first comma (not to
the decoded payload bytes), for every possible process hash seed. -/
theorem c6_inline_asset_naming (pyHash : List Char → Int) :
    (save_page_with_assets (str "https://www.example.com")
        (.ok (str "<img src=\"data:image/png;base64,iVBORw0KGgo=\">",
          [str "data:image/png;base64,iVBORw0KGgo="]))
        (fun _ => none) pyHash).wlog =
      [⟨str "data:image/png;base64,iVBORw0KGgo=",
        str "assets/inline_asset_" ++ (toString (pyHash (str "iVBORw0KGgo="))).data ++
          str ".png",
        [137, 80, 78, 71, 13, 10, 26, 10]⟩] := by
  rfl

/-- Concrete stand-in for Python's process-seeded string hash: the code
point of the second character. -/
def hashDemo (s : List Char) : Int := ((s.drop 1).headD 'A').toNat

/-- C6 counterexample: the data URLs `…base64,QQ==` and `…base64,QR==`
decode to the same payload byte `[65]`, yet receive different file names,
because the hash is taken over the encoded text rather than the payload —
so the filename hash is not a hash of the asset's payload. -/
theorem c6_counterexample :
    (save_page_with_assets (str "https://www.example.com")
        (.ok (str "",
          [str "data:image/png;base64,QQ==", str "data:image/png;base64,QR=="]))
        (fun _ => none) hashDemo).wlog =
      [⟨str "data:image/png;base64,QQ==", str "assets/inline_asset_81.png", [65]⟩,
       ⟨str "data:image/png;base64,QR==", str "assets/inline_asset_82.png", [65]⟩] ∧
    str "assets/inline_asset_81.png" ≠ str "assets/inline_asset_82.png" := by
  decide

/-- C7 (amended): the text pass consults only the name of a text node's
immediate parent: nodes directly under `script`, `style`, `head`, `meta`
or the document root are left unchanged and never submitted, while text
nested deeper inside such regions (for example `title` text inside `head`)
is translated like any other text. -/
theorem c7_text_nodes_immediate_parent_only (tr : Tr) (doc : HForest) :
    textsF (str "[document]") (translateDoc tr doc).1 =
      (textsF (str "[document]") doc).map
        (fun qs => if !skipParent qs.1 && hasNonWS qs.2 then
          (qs.1, send_text_to_openai tr (str "element") qs.2) else qs) ∧
    ((translateDoc tr doc).2.filter (fun c => c.cat = str "element")).map
        TCall.input =
      ((textsF (str "[document]") doc).filter
        (fun qs => !skipParent qs.1 && hasNonWS qs.2)).map Prod.snd := by
  constructor
  · simp only [translateDoc]
    rw [textF_fst_texts, imgF_texts, metaF_texts]
  · simp only [translateDoc]
    rw [metaF_snd, imgF_snd, textF_snd, metaF_alts, imgF_texts, metaF_texts]
    simp [List.filter_append, filter_of_map, List.map_map,
      show (decide (str "meta" = str "element")) = false from by decide,
      show (decide (str "img" = str "element")) = false from by decide,
      show (decide (str "element" = str "element")) = true from by decide,
      Function.comp]

/-- C7 counterexample: the text `Hi` inside `title` inside `head` — a
descendant of `head` — is submitted for translation and replaced, because
only its immediate parent `title` is checked. -/
theorem c7_counterexample :
    textsF (str "[document]")
      (translateDoc (fun _ _ => .ok (str "HOLA"))
        (.cons (.elem (str "head") []
          (.cons (.elem (str "title") [] (.cons (.textN (str "Hi")) .nil)) .nil))
          .nil)).1 =
      [(str "title", str "HOLA")] ∧
    (translateDoc (fun _ _ => .ok (str "HOLA"))
        (.cons (.elem (str "head") []
          (.cons (.elem (str "title") [] (.cons (.textN (str "Hi")) .nil)) .nil))
          .nil)).2.map TCall.input = [str "Hi"] ∧
    str "HOLA" ≠ str "Hi" := by
  decide

/-- C8: an `img` element's `alt` attribute is replaced by the send result
exactly when its stripped value is non-empty, and the submitted img texts
are exactly the non-blank alt values — a blank `alt` produces no call and
hence no error record. -/
theorem c8_img_alt_iff_nonblank (tr : Tr) (doc : HForest) :
    imgAltsF (translateDoc tr doc).1 =
      (imgAltsF doc).map
        (fun a => if hasNonWS a then send_text_to_openai tr (str "img") a else a) ∧
    ((translateDoc tr doc).2.filter (fun c => c.cat = str "img")).map TCall.input =
      (imgAltsF doc).filter hasNonWS := by
  constructor
  · simp only [translateDoc]
    rw [textF_alts, imgF_fst_alts, metaF_alts]
  · simp only [translateDoc]
    rw [metaF_snd, imgF_snd, textF_snd, metaF_alts, imgF_texts, metaF_texts]
    simp [List.filter_append, filter_of_map, List.map_map,
      show (decide (str "meta" = str "img")) = false from by decide,
      show (decide (str "img" = str "img")) = true from by decide,
      show (decide (str "element" = str "img")) = false from by decide,
      Function.comp]
    rw [show (TCall.input ∘ fun a => (⟨str "img", a, tr (str "img") a⟩ : TCall)) = id
      from rfl, List.map_id]

/-- C9 (amended): decoding inverts encoding — the canonical base64
encoding of any byte payload decodes back to exactly that payload; hence
decode-then-re-encode reproduces an encoded payload precisely when it is
canonical, which the scenario input is, while non-canonical encodings
re-encode to their canonical form. -/
theorem c9_b64_roundtrip (b : List Nat) (hb : ∀ x ∈ b, x < 256) :
    b64decode (b64encode b) = .ok b :=
  b64decode_b64encode b hb

/-- C9 witness: the PNG-header payload of the scenario round-trips. -/
theorem c9_b64_roundtrip_witness :
    b64decode (b64encode [137, 80, 78, 71, 13, 10, 26, 10]) =
      .ok [137, 80, 78, 71, 13, 10, 26, 10] :=
  c9_b64_roundtrip [137, 80, 78, 71, 13, 10, 26, 10] (by decide)

/-- C9 counterexample: `QR==` decodes to byte `[65]` (Python discards the
non-zero padding bits), but `[65]` re-encodes to `QQ==`, so decoding then
re-encoding does not reproduce the original encoded payload. -/
theorem c9_counterexample :
    b64decode (str "QR==") = .ok [65] ∧ b64encode [65] = str "QQ==" ∧
    str "QQ==" ≠ str "QR==" := by
  decide

/-- C10: `translate_html_content` never lets an exception escape — its
body runs under a catch-all handler, so when parsing the document fails
the input HTML string is returned unchanged. -/
theorem c10_parse_failure_returns_input
    (parse : List Char → Except (List Char) HForest) (tr : Tr) (html e : List Char)
    (h : parse html = .error e) :
    translate_html_content parse tr html = html := by
  unfold translate_html_content
  rw [h]

/-- C10 witness: a concrete failing parser falls back to the input. -/
theorem c10_parse_failure_returns_input_witness :
    translate_html_content (fun _ => .error (str "HTMLParser failure"))
      (fun _ t => .ok t) (str "<p>hola") = str "<p>hola" :=
  c10_parse_failure_returns_input (fun _ => .error (str "HTMLParser failure"))
    (fun _ t => .ok t) (str "<p>hola") (str "HTMLParser failure") rfl

end SavePage
